import Mathlib

/-!
Shallow embedding of the fire-data analysis pipeline
(`fire_data_analysis.py`): the Cleaner (`preprocess_data`) and the
Aggregator (`summarize_data`), together with proofs of the spec's
testable properties.

Modelling conventions:
* a raw table row carries the two temporal fields as `Option String`
  (`none` models a missing / NA cell) plus an opaque passthrough payload;
* the table remembers its column names so that the structural
  "required column absent" failure of `dropna(subset=...)` is observable;
* `pd.to_datetime(..., format="%Y-%m-%d %H%M", errors="coerce")` becomes
  the total function `parseDT` returning `Option Timestamp`, checking the
  fixed 15-character shape and calendar ranges (leap years included);
* the pandas Series produced by `groupby(...).size()` becomes an
  association list over sorted distinct keys; `unstack(fill_value=0)`
  materializes one column per month observed anywhere in the table.
-/

structure RawRow where
  acq_date : Option String
  acq_time : Option String
  extra : Nat
deriving DecidableEq

structure RawTable where
  cols : List String
  rows : List RawRow
deriving DecidableEq

structure Timestamp where
  year : Nat
  month : Nat
  day : Nat
  hour : Nat
  minute : Nat
deriving DecidableEq

structure CleanedRow where
  acq_date : String
  acq_time : String
  dt : Timestamp
  year : Nat
  month : Nat
  year_month : Nat × Nat
  extra : Nat
deriving DecidableEq

/-- Python `str.zfill w`: left-pad with zeros to width `w`, a leading sign
staying in front; a string already of length at least `w` is unchanged. -/
def zfill (w : Nat) (s : String) : String :=
  if w ≤ s.length then s
  else
    match s.data with
    | [] => ⟨List.replicate w '0'⟩
    | c :: cs =>
      if c = '+' ∨ c = '-' then ⟨c :: (List.replicate (w - s.length) '0' ++ cs)⟩
      else ⟨List.replicate (w - s.length) '0' ++ c :: cs⟩

def isDigits (l : List Char) : Bool := l.all (fun c => c.isDigit)

def digitsVal (l : List Char) : Nat :=
  l.foldl (fun a c => a * 10 + (c.toNat - 48)) 0

def isLeap (y : Nat) : Bool := (y % 4 == 0 && y % 100 != 0) || (y % 400 == 0)

def daysInMonth (y m : Nat) : Nat :=
  if m == 2 then (if isLeap y then 29 else 28)
  else if m == 4 || m == 6 || m == 9 || m == 11 then 30
  else 31

/-- Strict parse of `"YYYY-MM-DD HHMM"` (the fixed format
`%Y-%m-%d %H%M` used with `errors="coerce"`): exactly 15 characters,
dashes and the space at fixed positions, all groups decimal digits, and
calendar/clock ranges respected; any failure yields `none`. -/
def parseDT (s : String) : Option Timestamp :=
  let cs := s.data
  if cs.length = 15 ∧ cs[4]? = some '-' ∧ cs[7]? = some '-' ∧ cs[10]? = some ' '
      ∧ isDigits (cs.take 4) ∧ isDigits ((cs.drop 5).take 2)
      ∧ isDigits ((cs.drop 8).take 2) ∧ isDigits ((cs.drop 11).take 2)
      ∧ isDigits ((cs.drop 13).take 2) then
    let yv := digitsVal (cs.take 4)
    let mv := digitsVal ((cs.drop 5).take 2)
    let dv := digitsVal ((cs.drop 8).take 2)
    let hv := digitsVal ((cs.drop 11).take 2)
    let miv := digitsVal ((cs.drop 13).take 2)
    if 1 ≤ mv ∧ mv ≤ 12 ∧ 1 ≤ dv ∧ dv ≤ daysInMonth yv mv ∧ hv ≤ 23 ∧ miv ≤ 59 then
      some ⟨yv, mv, dv, hv, miv⟩
    else none
  else none

/-- `df["acq_date"] + " " + df["acq_time"]`. -/
def fuse (d t : String) : String := d ++ " " ++ t

/-- Row selector of step 1: `dropna(subset=["acq_date", "acq_time"])`. -/
def keepRow (r : RawRow) : Bool := r.acq_date.isSome && r.acq_time.isSome

/-- Per-row steps 2-6 of the Cleaner: normalize `acq_time` with
`zfill 4`, fuse with `acq_date`, parse, and on success derive `year`,
`month` and `year_month`; `none` when the timestamp fails to parse. -/
def cleanRow (r : RawRow) : Option CleanedRow :=
  match r.acq_date, r.acq_time with
  | some d, some t =>
    match parseDT (fuse d (zfill 4 t)) with
    | some ts => some ⟨d, zfill 4 t, ts, ts.year, ts.month, (ts.year, ts.month), r.extra⟩
    | none => none
  | _, _ => none

/-- The Cleaner `preprocess_data`: `dropna` on the two required columns
(raising `KeyError` when either column is absent from the table), then
the per-row normalization / fusion / parse pipeline, dropping rows whose
timestamp fails to parse. -/
def preprocess_data (df : RawTable) : Except String (List CleanedRow) :=
  if "acq_date" ∈ df.cols ∧ "acq_time" ∈ df.cols then
    .ok ((df.rows.filter keepRow).filterMap cleanRow)
  else
    .error "KeyError: columns acq_date and acq_time are required"

def insertSorted (x : Nat) : List Nat → List Nat
  | [] => [x]
  | y :: ys => if x ≤ y then x :: y :: ys else y :: insertSorted x ys

/-- Ascending sort of the group keys (pandas `groupby` sorts its keys). -/
def sortNat (l : List Nat) : List Nat := l.foldr insertSorted []

def yearsOf (df : List CleanedRow) : List Nat := df.map (fun r => r.year)

def monthsOf (df : List CleanedRow) : List Nat := df.map (fun r => r.month)

/-- `groupby(k).size()`: one entry per distinct key, in ascending key
order, carrying the number of occurrences of that key. -/
def groupSize (keys : List Nat) : List (Nat × Nat) :=
  (sortNat keys.dedup).map (fun k => (k, keys.count k))

/-- `df.groupby("year").size()`. -/
def yearly_counts (df : List CleanedRow) : List (Nat × Nat) :=
  groupSize (yearsOf df)

/-- `df.groupby("month").size()`. -/
def monthly_counts (df : List CleanedRow) : List (Nat × Nat) :=
  groupSize (monthsOf df)

/-- `df["year"].nunique()`. -/
def nuniqueYears (df : List CleanedRow) : Nat := (yearsOf df).dedup.length

/-- `df.groupby("month").size() / df["year"].nunique()`, the elementwise
division carried out in exact rational arithmetic. -/
def seasonal_means (df : List CleanedRow) : List (Nat × ℚ) :=
  (sortNat (monthsOf df).dedup).map
    (fun m => (m, ((monthsOf df).count m : ℚ) / (nuniqueYears df : ℚ)))

/-- Size of the `(year, month)` group: number of cleaned rows carrying
exactly that year and that month. -/
def countYM (df : List CleanedRow) (y m : Nat) : Nat :=
  (df.filter (fun r => r.year == y && r.month == m)).length

/-- `df.groupby(["year", "month"]).size().unstack(fill_value=0)`: one row
per observed year, one column per month observed anywhere in the table,
each cell holding the `(year, month)` count — `0` when that particular
combination never occurs. -/
def monthly_heatmap (df : List CleanedRow) : List (Nat × List (Nat × Nat)) :=
  (sortNat (yearsOf df).dedup).map
    (fun y => (y, (sortNat (monthsOf df).dedup).map (fun m => (m, countYM df y m))))

/-- The Aggregator `summarize_data`: the four views returned as a tuple. -/
def summarize_data (df : List CleanedRow) :
    List (Nat × Nat) × List (Nat × Nat) × List (Nat × ℚ) × List (Nat × List (Nat × Nat)) :=
  (yearly_counts df, monthly_counts df, seasonal_means df, monthly_heatmap df)

/-- Lookup in an association-list series (`series[k]`), `none` when the
key is absent. -/
def seriesGet {α : Type} (s : List (Nat × α)) (k : Nat) : Option α :=
  (s.find? (fun p => p.1 == k)).map (fun p => p.2)

/-- Scenario A cleaned table from the spec: two cleaned rows, both in
year 2020, one in month 1 (from date `2020-01-01`, raw time `5`
normalized to `0005`) and one in month 6 (`2020-06-15`, time `1230`). -/
def dfA : List CleanedRow :=
  [⟨"2020-01-01", "0005", ⟨2020, 1, 1, 0, 5⟩, 2020, 1, (2020, 1), 0⟩,
   ⟨"2020-06-15", "1230", ⟨2020, 6, 15, 12, 30⟩, 2020, 6, (2020, 6), 1⟩]

lemma insertSorted_perm (x : Nat) (l : List Nat) : (insertSorted x l).Perm (x :: l) := by
  induction l with
  | nil => exact List.Perm.refl _
  | cons y ys ih =>
    simp only [insertSorted]
    by_cases h : x ≤ y
    · simp only [if_pos h]
      exact List.Perm.refl _
    · simp only [if_neg h]
      exact (ih.cons y).trans (List.Perm.swap x y ys)

lemma sortNat_perm (l : List Nat) : (sortNat l).Perm l := by
  induction l with
  | nil => exact List.Perm.refl _
  | cons x xs ih =>
    simp only [sortNat, List.foldr_cons]
    exact (insertSorted_perm x _).trans (ih.cons x)

lemma mem_sortNat_dedup {a : Nat} {l : List Nat} : a ∈ sortNat l.dedup ↔ a ∈ l := by
  rw [(sortNat_perm l.dedup).mem_iff, List.mem_dedup]

lemma nodup_sortNat_dedup (l : List Nat) : (sortNat l.dedup).Nodup :=
  ((sortNat_perm l.dedup).nodup_iff).mpr (List.nodup_dedup l)

lemma seriesGet_map_of_mem {α : Type} (f : Nat → α) {ks : List Nat} {m : Nat} (h : m ∈ ks) :
    seriesGet (ks.map (fun k => (k, f k))) m = some (f m) := by
  induction ks with
  | nil => cases h
  | cons k ks ih =>
    by_cases hk : k = m
    · subst hk
      unfold seriesGet
      rw [List.map_cons, List.find?_cons_of_pos _ (by simp)]
      rfl
    · rcases List.mem_cons.mp h with h' | h'
      · exact absurd h'.symm hk
      · unfold seriesGet
        rw [List.map_cons, List.find?_cons_of_neg _ (by simp [hk])]
        exact ih h'

lemma seriesGet_map_inv {α : Type} (f : Nat → α) {ks : List Nat} {m : Nat} {v : α}
    (h : seriesGet (ks.map (fun k => (k, f k))) m = some v) : m ∈ ks ∧ v = f m := by
  induction ks with
  | nil => simp [seriesGet] at h
  | cons k ks ih =>
    by_cases hk : k = m
    · subst hk
      unfold seriesGet at h
      rw [List.map_cons, List.find?_cons_of_pos _ (by simp)] at h
      simp at h
      exact ⟨List.mem_cons_self k ks, h.symm⟩
    · unfold seriesGet at h
      rw [List.map_cons, List.find?_cons_of_neg _ (by simp [hk])] at h
      obtain ⟨hmem, hv⟩ := ih h
      exact ⟨List.mem_cons_of_mem _ hmem, hv⟩

lemma map_fst_map_pair {α : Type} (f : Nat → α) (ks : List Nat) :
    ((ks.map (fun k => (k, f k))).map Prod.fst) = ks := by
  induction ks with
  | nil => rfl
  | cons k ks ih => simp only [List.map_cons, ih]

lemma sum_map_add_nat {α : Type} (l : List α) (f g : α → Nat) :
    (l.map (fun x => f x + g x)).sum = (l.map f).sum + (l.map g).sum := by
  induction l with
  | nil => rfl
  | cons x xs ih =>
    simp only [List.map_cons, List.sum_cons, ih]
    omega

lemma sum_map_ite_eq_one (a : Nat) : ∀ ks : List Nat, ks.Nodup → a ∈ ks →
    (ks.map (fun k => if a = k then 1 else 0)).sum = 1 := by
  intro ks
  induction ks with
  | nil => intro _ ha; cases ha
  | cons k ks ih =>
    intro hnd ha
    obtain ⟨hk, hnd'⟩ := List.nodup_cons.mp hnd
    by_cases h : a = k
    · subst h
      have hz : (ks.map (fun k' => if a = k' then 1 else 0)).sum = 0 := by
        apply List.sum_eq_zero
        intro x hx
        obtain ⟨k', hk', rfl⟩ := List.mem_map.mp hx
        have hne : a ≠ k' := fun he => hk (he ▸ hk')
        simp [hne]
      simp [List.map_cons, List.sum_cons, hz]
    · have ha' : a ∈ ks := by
        rcases List.mem_cons.mp ha with h' | h'
        · exact absurd h' h
        · exact h'
      simp [List.map_cons, List.sum_cons, h, ih hnd' ha']

lemma sum_map_countP_partition {α : Type} (key : α → Nat) (ks : List Nat) (hnd : ks.Nodup) :
    ∀ L : List α, (∀ x ∈ L, key x ∈ ks) →
    (ks.map (fun k => L.countP (fun x => key x == k))).sum = L.length := by
  intro L
  induction L with
  | nil => intro _; simp
  | cons x L ih =>
    intro hL
    have hx : key x ∈ ks := hL x (List.mem_cons_self x L)
    have hL' : ∀ y ∈ L, key y ∈ ks := fun y hy => hL y (List.mem_cons_of_mem x hy)
    have hstep : ∀ k : Nat, (x :: L).countP (fun z => key z == k)
        = L.countP (fun z => key z == k) + (if key x = k then 1 else 0) := by
      intro k
      rw [List.countP_cons]
      by_cases h : key x = k <;> simp [h]
    have hmapeq : (fun k => (x :: L).countP (fun z => key z == k))
        = (fun k => L.countP (fun z => key z == k) + (if key x = k then 1 else 0)) :=
      funext hstep
    calc (ks.map (fun k => (x :: L).countP (fun z => key z == k))).sum
        = (ks.map (fun k => L.countP (fun z => key z == k)
            + (if key x = k then 1 else 0))).sum := by rw [hmapeq]
      _ = (ks.map (fun k => L.countP (fun z => key z == k))).sum
            + (ks.map (fun k => if key x = k then 1 else 0)).sum := sum_map_add_nat _ _ _
      _ = L.length + 1 := by rw [ih hL', sum_map_ite_eq_one (key x) ks hnd hx]
      _ = (x :: L).length := by simp [List.length_cons]

lemma groupSize_sum (l : List Nat) : ((groupSize l).map Prod.snd).sum = l.length := by
  unfold groupSize
  rw [List.map_map]
  have h1 : (Prod.snd ∘ fun k => (k, l.count k)) = fun k => l.count k := rfl
  rw [h1]
  rw [((sortNat_perm l.dedup).map (fun k => l.count k)).sum_eq]
  exact List.sum_map_count_dedup_eq_length l

lemma count_map_eq_countP {α : Type} (f : α → Nat) (l : List α) (a : Nat) :
    (l.map f).count a = l.countP (fun x => f x == a) := by
  rw [List.count_eq_countP, List.countP_map]
  rfl

lemma countYM_eq_countP (df : List CleanedRow) (y m : Nat) :
    countYM df y m = df.countP (fun r => r.year == y && r.month == m) := by
  rw [countYM, ← List.countP_eq_length_filter]

/-- Claim C1: for every cleaned table, the values of `yearly_counts` and
the values of `monthly_counts` both sum to the number of cleaned rows. -/
theorem C1_counts_sum_eq_rows (df : List CleanedRow) :
    ((yearly_counts df).map Prod.snd).sum = df.length ∧
    ((monthly_counts df).map Prod.snd).sum = df.length := by
  constructor
  · rw [yearly_counts, groupSize_sum, yearsOf, List.length_map]
  · rw [monthly_counts, groupSize_sum, monthsOf, List.length_map]

/-- Claim C2: on a cleaned table with at least one distinct year, every
month key of `monthly_counts` is mapped by `seasonal_means` to its count
divided by the single global number of distinct years, and the two series
have exactly the same key sequence. -/
theorem C2_seasonal_means_divisor (df : List CleanedRow)
    (hY : 1 ≤ nuniqueYears df) (m : Nat) (c : Nat)
    (hm : seriesGet (monthly_counts df) m = some c) :
    seriesGet (seasonal_means df) m = some ((c : ℚ) / (nuniqueYears df : ℚ)) ∧
    (seasonal_means df).map Prod.fst = (monthly_counts df).map Prod.fst := by
  rw [monthly_counts, groupSize] at hm
  obtain ⟨hmem, hc⟩ := seriesGet_map_inv (fun k => (monthsOf df).count k) hm
  constructor
  · rw [seasonal_means, seriesGet_map_of_mem (fun k =>
      (((monthsOf df).count k : ℚ) / (nuniqueYears df : ℚ))) hmem, hc]
  · rw [seasonal_means, monthly_counts, groupSize, List.map_map, List.map_map]
    rfl

/-- Scenario B raw table from the spec: the required columns are present
but every row fails cleaning (month 13 out of range, unparsable date,
missing date), so the cleaned table is empty. -/
def dfB : RawTable :=
  ⟨["latitude", "acq_date", "acq_time"],
   [⟨some "2020-13-01", some "0005", 0⟩,
    ⟨some "bad", some "999", 1⟩,
    ⟨none, some "1230", 2⟩]⟩

/-- Claim C5: a table whose rows all fail timestamp parsing cleans to the
empty table without raising, and on the empty cleaned table the
Aggregator returns all four views empty — in particular `seasonal_means`
is empty rather than performing a division by zero. -/
theorem C5_empty_table_all_views_empty :
    preprocess_data dfB = .ok [] ∧
    summarize_data [] = ([], [], [], []) := by
  constructor
  · rfl
  · rfl

/-- Witness for C2: Scenario A table, month 1, count 1, one distinct year. -/
theorem C2_seasonal_means_divisor_witness :
    1 ≤ nuniqueYears dfA ∧ seriesGet (monthly_counts dfA) 1 = some 1 ∧
    (seriesGet (seasonal_means dfA) 1 = some (((1 : Nat) : ℚ) / (nuniqueYears dfA : ℚ)) ∧
     (seasonal_means dfA).map Prod.fst = (monthly_counts dfA).map Prod.fst) :=
  ⟨by decide, by decide, C2_seasonal_means_divisor dfA (by decide) 1 1 (by decide)⟩

/-- Counterexample to C3: on the Scenario A table the heatmap row for
2020 has columns 1 and 6 only; the months 2-5 and 7-12 are absent, not
present with an explicit 0 as the claim requires. -/
theorem C3_heatmap_columns_counterexample :
    monthly_heatmap dfA = [(2020, [(1, 1), (6, 1)])] ∧
    ¬ (∀ p ∈ monthly_heatmap dfA, ∀ m ∈ [2, 3, 4, 5, 7, 8, 9, 10, 11, 12],
        seriesGet p.2 m = some 0) := by
  constructor
  · decide
  · decide

/-- Claim C3 (amended): the heatmap's rows are exactly the observed
years, its columns are exactly the distinct months observed anywhere in
the cleaned table (not all twelve months), and for every observed year
`y` and globally observed month `m` the cell `(y, m)` is explicitly
present, holding the `(y, m)` count — `0` when that combination has no
records. -/
theorem C3_heatmap_structure (df : List CleanedRow) (y m : Nat)
    (hy : y ∈ yearsOf df) (hm : m ∈ monthsOf df) :
    ((monthly_heatmap df).map Prod.fst).Perm (yearsOf df).dedup ∧
    ∃ cols, seriesGet (monthly_heatmap df) y = some cols ∧
      cols.map Prod.fst = sortNat (monthsOf df).dedup ∧
      seriesGet cols m = some (countYM df y m) := by
  constructor
  · rw [monthly_heatmap, map_fst_map_pair]
    exact sortNat_perm _
  · refine ⟨(sortNat (monthsOf df).dedup).map (fun m' => (m', countYM df y m')), ?_, ?_, ?_⟩
    · rw [monthly_heatmap]
      exact seriesGet_map_of_mem
        (fun y' => (sortNat (monthsOf df).dedup).map (fun m' => (m', countYM df y' m')))
        (mem_sortNat_dedup.mpr hy)
    · exact map_fst_map_pair _ _
    · exact seriesGet_map_of_mem (fun m' => countYM df y m') (mem_sortNat_dedup.mpr hm)

/-- Witness for the amended C3: Scenario A table, year 2020, month 6. -/
theorem C3_heatmap_structure_witness :
    2020 ∈ yearsOf dfA ∧ 6 ∈ monthsOf dfA ∧
    (((monthly_heatmap dfA).map Prod.fst).Perm (yearsOf dfA).dedup ∧
     ∃ cols, seriesGet (monthly_heatmap dfA) 2020 = some cols ∧
       cols.map Prod.fst = sortNat (monthsOf dfA).dedup ∧
       seriesGet cols 6 = some (countYM dfA 2020 6)) :=
  ⟨by decide, by decide, C3_heatmap_structure dfA 2020 6 (by decide) (by decide)⟩

/-- Claim C4: every heatmap row sums to `yearly_counts` at its year, and
for every month key of `monthly_counts` the heatmap column at that month
sums to that month's total count. -/
theorem C4_heatmap_marginals (df : List CleanedRow) (p : Nat × List (Nat × Nat))
    (hp : p ∈ monthly_heatmap df) (m : Nat) (c : Nat)
    (hm : seriesGet (monthly_counts df) m = some c) :
    seriesGet (yearly_counts df) p.1 = some ((p.2.map Prod.snd).sum) ∧
    ((monthly_heatmap df).map (fun q => (seriesGet q.2 m).getD 0)).sum = c := by
  rw [monthly_counts, groupSize] at hm
  obtain ⟨hmm, hc⟩ := seriesGet_map_inv (fun k => (monthsOf df).count k) hm
  rw [monthly_heatmap] at hp
  obtain ⟨y, hy, rfl⟩ := List.mem_map.mp hp
  have hcovM : ∀ x ∈ df.filter (fun r => r.year == y),
      (fun r : CleanedRow => r.month) x ∈ sortNat (monthsOf df).dedup := by
    intro x hx
    apply mem_sortNat_dedup.mpr
    simp only [monthsOf]
    exact List.mem_map_of_mem _ (List.mem_of_mem_filter hx)
  have hcovY : ∀ x ∈ df.filter (fun r => r.month == m),
      (fun r : CleanedRow => r.year) x ∈ sortNat (yearsOf df).dedup := by
    intro x hx
    apply mem_sortNat_dedup.mpr
    simp only [yearsOf]
    exact List.mem_map_of_mem _ (List.mem_of_mem_filter hx)
  constructor
  · rw [yearly_counts, groupSize,
      seriesGet_map_of_mem (fun k => (yearsOf df).count k) hy]
    have hsum : ((((sortNat (monthsOf df).dedup).map
        (fun m' => (m', countYM df y m'))).map Prod.snd).sum) = (yearsOf df).count y := by
      rw [List.map_map]
      have hcomp : (Prod.snd ∘ fun m' => (m', countYM df y m'))
          = fun m' => countYM df y m' := rfl
      rw [hcomp]
      have hcYM : (fun m' => countYM df y m')
          = fun m' => (df.filter (fun r => r.year == y)).countP (fun r => r.month == m') := by
        funext m'
        rw [countYM_eq_countP, List.countP_filter]
        have hand : (fun r : CleanedRow => r.year == y && r.month == m')
            = fun r => r.month == m' && r.year == y :=
          funext fun r => Bool.and_comm _ _
        rw [hand]
      rw [hcYM]
      rw [sum_map_countP_partition (fun r => r.month) (sortNat (monthsOf df).dedup)
        (nodup_sortNat_dedup (monthsOf df)) (df.filter (fun r => r.year == y)) hcovM]
      rw [← List.countP_eq_length_filter, yearsOf, count_map_eq_countP]
    rw [hsum]
  · rw [monthly_heatmap, List.map_map]
    have hcomp2 : ((fun q : Nat × List (Nat × Nat) => (seriesGet q.2 m).getD 0) ∘
        (fun y' => (y', (sortNat (monthsOf df).dedup).map (fun m' => (m', countYM df y' m')))))
        = fun y' => countYM df y' m := by
      funext y'
      simp only [Function.comp]
      rw [seriesGet_map_of_mem (fun m' => countYM df y' m') hmm]
      rfl
    rw [hcomp2]
    have hcYM2 : (fun y' => countYM df y' m)
        = fun y' => (df.filter (fun r => r.month == m)).countP (fun r => r.year == y') := by
      funext y'
      rw [countYM_eq_countP, List.countP_filter]
    rw [hcYM2]
    rw [sum_map_countP_partition (fun r => r.year) (sortNat (yearsOf df).dedup)
      (nodup_sortNat_dedup (yearsOf df)) (df.filter (fun r => r.month == m)) hcovY]
    rw [← List.countP_eq_length_filter, hc, monthsOf, count_map_eq_countP]

/-- Witness for C4: Scenario A table, its single heatmap row, month 1. -/
theorem C4_heatmap_marginals_witness :
    ((2020, [(1, 1), (6, 1)]) : Nat × List (Nat × Nat)) ∈ monthly_heatmap dfA ∧
    seriesGet (monthly_counts dfA) 1 = some 1 ∧
    (seriesGet (yearly_counts dfA) (2020 : Nat)
        = some ((([(1, 1), (6, 1)] : List (Nat × Nat)).map Prod.snd).sum) ∧
     ((monthly_heatmap dfA).map (fun q => (seriesGet q.2 1).getD 0)).sum = 1) :=
  ⟨by decide, by decide,
   C4_heatmap_marginals dfA (2020, [(1, 1), (6, 1)]) (by decide) 1 1 (by decide)⟩

/-- A cleaned row is the cleaning of a given raw row: same date, time
normalized by `zfill 4`, same passthrough payload. -/
def cleansTo (r : RawRow) (c : CleanedRow) : Prop :=
  r.acq_date = some c.acq_date ∧
  (∃ t, r.acq_time = some t ∧ zfill 4 t = c.acq_time) ∧
  r.extra = c.extra

lemma cleanRow_spec {r : RawRow} {c : CleanedRow} (h : cleanRow r = some c) :
    cleansTo r c ∧ parseDT (fuse c.acq_date c.acq_time) = some c.dt ∧
    c.year = c.dt.year ∧ c.month = c.dt.month ∧ c.year_month = (c.dt.year, c.dt.month) := by
  obtain ⟨rd, rt, re⟩ := r
  cases rd with
  | none => simp [cleanRow] at h
  | some d =>
    cases rt with
    | none => simp [cleanRow] at h
    | some t =>
      simp only [cleanRow] at h
      split at h
      · rename_i ts hp
        injection h with h'
        subst h'
        exact ⟨⟨rfl, ⟨t, rfl, rfl⟩, rfl⟩, hp, rfl, rfl, rfl⟩
      · cases h

lemma pipeline_sublist (rows : List RawRow) :
    ∃ sub, sub.Sublist rows ∧
      List.Forall₂ cleansTo sub ((rows.filter keepRow).filterMap cleanRow) := by
  induction rows with
  | nil => exact ⟨[], List.Sublist.refl _, List.Forall₂.nil⟩
  | cons r rs ih =>
    obtain ⟨sub, hs, hf⟩ := ih
    by_cases hk : keepRow r = true
    · rw [List.filter_cons_of_pos hk]
      cases hc : cleanRow r with
      | some c =>
        rw [List.filterMap_cons_some hc]
        exact ⟨r :: sub, List.Sublist.cons₂ r hs, List.Forall₂.cons (cleanRow_spec hc).1 hf⟩
      | none =>
        rw [List.filterMap_cons_none hc]
        exact ⟨sub, List.Sublist.cons r hs, hf⟩
    · rw [List.filter_cons_of_neg hk]
      exact ⟨sub, List.Sublist.cons r hs, hf⟩

/-- Claim C6: whenever the Cleaner succeeds, every output record carries
a timestamp that actually parses from its own (date, normalized time)
fields, and the output is obtained from an order-preserving selection of
the input rows, each selected row cleaning to its output row — rows are
only dropped, never invented, duplicated or merged. -/
theorem C6_valid_timestamps_and_subset (df : RawTable) (out : List CleanedRow)
    (h : preprocess_data df = .ok out) :
    (∀ c ∈ out, parseDT (fuse c.acq_date c.acq_time) = some c.dt) ∧
    ∃ sub, sub.Sublist df.rows ∧ List.Forall₂ cleansTo sub out := by
  unfold preprocess_data at h
  split at h
  · injection h with h'
    subst h'
    constructor
    · intro c hc
      obtain ⟨r, _, hr⟩ := List.mem_filterMap.mp hc
      exact (cleanRow_spec hr).2.1
    · exact pipeline_sublist df.rows
  · cases h

/-- Concrete raw table used as witness input: both required columns are
present, one well-formed row whose time `5` must be padded to `0005`. -/
def dfW : RawTable :=
  ⟨["acq_date", "acq_time"], [⟨some "2020-01-01", some "5", 7⟩]⟩

/-- Cleaning of `dfW`. -/
def outW : List CleanedRow :=
  [⟨"2020-01-01", "0005", ⟨2020, 1, 1, 0, 5⟩, 2020, 1, (2020, 1), 7⟩]

/-- Witness for C6 at the concrete table `dfW`. -/
theorem C6_valid_timestamps_and_subset_witness :
    preprocess_data dfW = .ok outW ∧
    ((∀ c ∈ outW, parseDT (fuse c.acq_date c.acq_time) = some c.dt) ∧
     ∃ sub, sub.Sublist dfW.rows ∧ List.Forall₂ cleansTo sub outW) :=
  ⟨by rfl, C6_valid_timestamps_and_subset dfW outW (by rfl)⟩

/-- Claim C7: with both required columns present the Cleaner always
returns a result (row-level malformation is absorbed, never fatal),
while a table missing either required column always produces an error
rather than a (possibly empty) result. -/
theorem C7_structural_error_policy (df : RawTable) :
    ((∃ out, preprocess_data df = .ok out) ↔
      ("acq_date" ∈ df.cols ∧ "acq_time" ∈ df.cols)) ∧
    ((∃ e, preprocess_data df = .error e) ↔
      ¬ ("acq_date" ∈ df.cols ∧ "acq_time" ∈ df.cols)) := by
  by_cases hc : "acq_date" ∈ df.cols ∧ "acq_time" ∈ df.cols
  · constructor
    · exact ⟨fun _ => hc, fun _ => ⟨_, by rw [preprocess_data, if_pos hc]⟩⟩
    · constructor
      · rintro ⟨e, he⟩
        rw [preprocess_data, if_pos hc] at he
        cases he
      · intro h
        exact absurd hc h
  · constructor
    · constructor
      · rintro ⟨o, ho⟩
        rw [preprocess_data, if_neg hc] at ho
        cases ho
      · intro h
        exact absurd h hc
    · exact ⟨fun _ => hc, fun _ => ⟨_, by rw [preprocess_data, if_neg hc]⟩⟩

lemma zfill_of_le {w : Nat} {s : String} (h : w ≤ s.length) : zfill w s = s := by
  unfold zfill
  rw [if_pos h]

lemma zfill_idem (s : String) : zfill 4 (zfill 4 s) = zfill 4 s := by
  apply zfill_of_le
  unfold zfill
  by_cases h : 4 ≤ s.length
  · rw [if_pos h]
    exact h
  · rw [if_neg h]
    push_neg at h
    have hsd : s.length = s.data.length := rfl
    cases hs : s.data with
    | nil =>
      show 4 ≤ (List.replicate 4 '0').length
      simp
    | cons c cs =>
      have hlen : s.length = cs.length + 1 := by rw [hsd, hs]; simp
      show 4 ≤ (if c = '+' ∨ c = '-' then
          (⟨c :: (List.replicate (4 - s.length) '0' ++ cs)⟩ : String)
          else ⟨List.replicate (4 - s.length) '0' ++ c :: cs⟩).length
      by_cases hc : c = '+' ∨ c = '-'
      · rw [if_pos hc]
        show 4 ≤ (c :: (List.replicate (4 - s.length) '0' ++ cs)).length
        simp
        omega
      · rw [if_neg hc]
        show 4 ≤ (List.replicate (4 - s.length) '0' ++ c :: cs).length
        simp
        omega

/-- The raw-row presentation of an already-cleaned record, as it would
sit in a table re-fed to the Cleaner. -/
def rawOf (c : CleanedRow) : RawRow := ⟨some c.acq_date, some c.acq_time, c.extra⟩

/-- Re-feeding the Cleaner's own output: the cleaned rows presented
again as a raw table whose required columns are present. -/
def refeed (out : List CleanedRow) : RawTable :=
  ⟨["acq_date", "acq_time"], out.map rawOf⟩

lemma cleanRow_reclean {r : RawRow} {c : CleanedRow} (h : cleanRow r = some c) :
    cleanRow (rawOf c) = some c := by
  obtain ⟨⟨hd, ⟨t, ht, hz⟩, he⟩, hp, hy, hm, hym⟩ := cleanRow_spec h
  have hz2 : zfill 4 c.acq_time = c.acq_time := by
    rw [← hz]
    exact zfill_idem t
  have hstep : cleanRow (rawOf c)
      = match parseDT (fuse c.acq_date (zfill 4 c.acq_time)) with
        | some ts => some ⟨c.acq_date, zfill 4 c.acq_time, ts, ts.year, ts.month,
            (ts.year, ts.month), c.extra⟩
        | none => none := rfl
  rw [hstep, hz2, hp]
  show some (CleanedRow.mk c.acq_date c.acq_time c.dt c.dt.year c.dt.month
    (c.dt.year, c.dt.month) c.extra) = some c
  rw [← hym, ← hy, ← hm]

lemma reclean_pipeline : ∀ out : List CleanedRow,
    (∀ c ∈ out, cleanRow (rawOf c) = some c) →
    ((out.map rawOf).filter keepRow).filterMap cleanRow = out := by
  intro out
  induction out with
  | nil => intro _; rfl
  | cons c cs ih =>
    intro hall
    have h1 := hall c (List.mem_cons_self c cs)
    have h2 : ∀ x ∈ cs, cleanRow (rawOf x) = some x :=
      fun x hx => hall x (List.mem_cons_of_mem _ hx)
    have hk : keepRow (rawOf c) = true := rfl
    rw [List.map_cons, List.filter_cons_of_pos hk, List.filterMap_cons_some h1, ih h2]

/-- Claim C8: the Cleaner is idempotent — re-feeding its own output
through the same cleaning logic drops zero rows and reproduces the
output unchanged (every cleaned row passes the required-field filter,
its 4-character normalized time is unchanged by re-padding, and its
re-fused timestamp parses again). -/
theorem C8_cleaner_idempotent (df : RawTable) (out : List CleanedRow)
    (h : preprocess_data df = .ok out) :
    preprocess_data (refeed out) = .ok out := by
  have hall : ∀ c ∈ out, cleanRow (rawOf c) = some c := by
    intro c hc
    unfold preprocess_data at h
    split at h
    · injection h with h'
      subst h'
      obtain ⟨r, _, hr⟩ := List.mem_filterMap.mp hc
      exact cleanRow_reclean hr
    · cases h
  have hcols : "acq_date" ∈ (refeed out).cols ∧ "acq_time" ∈ (refeed out).cols := by
    refine ⟨?_, ?_⟩ <;> simp [refeed]
  rw [preprocess_data, if_pos hcols]
  exact congrArg Except.ok (reclean_pipeline out hall)

/-- Witness for C8 at the concrete table `dfW`. -/
theorem C8_cleaner_idempotent_witness :
    preprocess_data dfW = .ok outW ∧ preprocess_data (refeed outW) = .ok outW :=
  ⟨by rfl, C8_cleaner_idempotent dfW outW (by rfl)⟩

lemma space_in_digit_group {cs : List Char} (a b i : Nat)
    (hseg : isDigits ((cs.drop a).take b) = true)
    (ha : a ≤ i) (hib : i < a + b) (hsp : cs[i]? = some ' ') : False := by
  have h1 : (cs.drop a)[i - a]? = some ' ' := by
    rw [List.getElem?_drop]
    have h2 : a + (i - a) = i := by omega
    rw [h2, hsp]
  have h3 : ((cs.drop a).take b)[i - a]? = some ' ' := by
    rw [List.getElem?_take, if_pos (by omega : i - a < b)]
    exact h1
  have h4 : (' ' : Char) ∈ (cs.drop a).take b := List.getElem?_mem h3
  unfold isDigits at hseg
  have h5 := List.all_eq_true.mp hseg _ h4
  exact absurd h5 (by decide)

lemma parseDT_fuse_lengths {d t : String} {ts : Timestamp}
    (h : parseDT (fuse d t) = some ts) (ht : 4 ≤ t.length) :
    d.length = 10 ∧ t.length = 4 := by
  have hdata : (fuse d t).data = d.data ++ ' ' :: t.data := by
    show (d ++ " " ++ t).data = _
    rw [String.data_append, String.data_append, List.append_assoc]
    rfl
  simp only [parseDT] at h
  rw [hdata] at h
  split at h
  · rename_i hcond
    obtain ⟨hlen, h4, h7, h10, hy, hm2, hd2, hh2, hmi2⟩ := hcond
    have hdl : d.length + t.length + 1 = 15 := by
      have h0 := hlen
      simp [List.length_append] at h0
      omega
    have htd : t.length = t.data.length := rfl
    have hdd : d.length = d.data.length := rfl
    by_cases hten : d.data.length = 10
    · exact ⟨by rw [hdd, hten], by omega⟩
    · exfalso
      have hlt : d.data.length < 10 := by omega
      have hsp : (d.data ++ ' ' :: t.data)[d.data.length]? = some ' ' := by
        rw [List.getElem?_append_right (le_refl d.data.length)]
        simp
      obtain ⟨n, hn⟩ : ∃ n, d.data.length = n := ⟨_, rfl⟩
      rw [hn] at hsp hlt
      interval_cases n
      · exact space_in_digit_group 0 4 0 (by rwa [List.drop_zero]) (by omega) (by omega) hsp
      · exact space_in_digit_group 0 4 1 (by rwa [List.drop_zero]) (by omega) (by omega) hsp
      · exact space_in_digit_group 0 4 2 (by rwa [List.drop_zero]) (by omega) (by omega) hsp
      · exact space_in_digit_group 0 4 3 (by rwa [List.drop_zero]) (by omega) (by omega) hsp
      · rw [h4] at hsp
        exact absurd (Option.some.inj hsp) (by decide)
      · exact space_in_digit_group 5 2 5 hm2 (by omega) (by omega) hsp
      · exact space_in_digit_group 5 2 6 hm2 (by omega) (by omega) hsp
      · rw [h7] at hsp
        exact absurd (Option.some.inj hsp) (by decide)
      · exact space_in_digit_group 8 2 8 hd2 (by omega) (by omega) hsp
      · exact space_in_digit_group 8 2 9 hd2 (by omega) (by omega) hsp
  · cases h

/-- Claim C9: a time string already 4 or more characters long is left
unchanged by the normalization (never truncated), and when it strictly
exceeds 4 characters the fused date-time string cannot match the fixed
15-character pattern, so the row is dropped rather than accepted. -/
theorem C9_overlong_time_not_truncated_dropped (r : RawRow) (d t : String)
    (hd : r.acq_date = some d) (ht : r.acq_time = some t) (hlen : 4 ≤ t.length) :
    zfill 4 t = t ∧ (4 < t.length → cleanRow r = none) := by
  refine ⟨zfill_of_le hlen, fun hgt => ?_⟩
  have hcr : cleanRow r = match parseDT (fuse d (zfill 4 t)) with
      | some ts => some ⟨d, zfill 4 t, ts, ts.year, ts.month, (ts.year, ts.month), r.extra⟩
      | none => none := by
    unfold cleanRow
    rw [hd, ht]
  rw [hcr, zfill_of_le hlen]
  cases hp : parseDT (fuse d t) with
  | none => rfl
  | some ts =>
    exfalso
    obtain ⟨hd10, ht4⟩ := parseDT_fuse_lengths hp hlen
    omega

/-- Raw row with an overlong (5-character) time field, used as witness. -/
def rowOverlong : RawRow := ⟨some "2020-01-01", some "12345", 3⟩

/-- Witness for C9 at the concrete overlong row. -/
theorem C9_overlong_time_not_truncated_dropped_witness :
    rowOverlong.acq_date = some "2020-01-01" ∧ rowOverlong.acq_time = some "12345" ∧
    4 ≤ ("12345" : String).length ∧
    (zfill 4 "12345" = "12345" ∧
     (4 < ("12345" : String).length → cleanRow rowOverlong = none)) :=
  ⟨rfl, rfl, by decide,
   C9_overlong_time_not_truncated_dropped rowOverlong "2020-01-01" "12345" rfl rfl (by decide)⟩

lemma pairMap_eq (df1 df2 : List CleanedRow)
    (hy : df1.map (fun r => r.year) = df2.map (fun r => r.year))
    (hm : df1.map (fun r => r.month) = df2.map (fun r => r.month)) :
    df1.map (fun r => (r.year, r.month)) = df2.map (fun r => (r.year, r.month)) := by
  rw [← List.zip_map', ← List.zip_map', hy, hm]

lemma countYM_eq_pair_count (df : List CleanedRow) (y m : Nat) :
    countYM df y m = (df.map (fun r => (r.year, r.month))).count (y, m) := by
  rw [countYM_eq_countP, List.count_eq_countP, List.countP_map]
  rfl

/-- Claim C10: the four aggregate views depend only on the `year` and
`month` columns — two cleaned tables equal on those two columns row for
row receive identical outputs from `summarize_data`, whatever their
passthrough fields (coordinates, timestamps, payload) contain. -/
theorem C10_views_only_from_year_month (df1 df2 : List CleanedRow)
    (hy : df1.map (fun r => r.year) = df2.map (fun r => r.year))
    (hm : df1.map (fun r => r.month) = df2.map (fun r => r.month)) :
    summarize_data df1 = summarize_data df2 := by
  have hy' : yearsOf df1 = yearsOf df2 := hy
  have hm' : monthsOf df1 = monthsOf df2 := hm
  have hpair := pairMap_eq df1 df2 hy hm
  have hYM : ∀ y m, countYM df1 y m = countYM df2 y m := by
    intro y m
    rw [countYM_eq_pair_count, countYM_eq_pair_count, hpair]
  unfold summarize_data yearly_counts monthly_counts seasonal_means monthly_heatmap nuniqueYears
  rw [hy', hm']
  have hfun : (fun y => (y, (sortNat (monthsOf df2).dedup).map (fun m => (m, countYM df1 y m))))
      = fun y => (y, (sortNat (monthsOf df2).dedup).map (fun m => (m, countYM df2 y m))) := by
    funext y
    have hinner : (fun m => ((m : Nat), countYM df1 y m))
        = fun m => (m, countYM df2 y m) := by
      funext m
      rw [hYM]
    rw [hinner]
  rw [hfun]

/-- Cleaned table with the same year and month columns as `dfA` but
different dates, times, timestamps, year-month keys and payloads. -/
def dfC : List CleanedRow :=
  [⟨"1999-12-31", "2359", ⟨1999, 12, 31, 23, 59⟩, 2020, 1, (0, 0), 99⟩,
   ⟨"1998-07-04", "0001", ⟨1998, 7, 4, 0, 1⟩, 2020, 6, (0, 0), 42⟩]

/-- Witness for C10: `dfA` and `dfC` agree on year/month columns only. -/
theorem C10_views_only_from_year_month_witness :
    dfA.map (fun r => r.year) = dfC.map (fun r => r.year) ∧
    dfA.map (fun r => r.month) = dfC.map (fun r => r.month) ∧
    summarize_data dfA = summarize_data dfC :=
  ⟨rfl, rfl, C10_views_only_from_year_month dfA dfC rfl rfl⟩

/-- Witness for C1 at the Scenario A table. -/
theorem C1_counts_sum_eq_rows_witness :
    ((yearly_counts dfA).map Prod.snd).sum = dfA.length ∧
    ((monthly_counts dfA).map Prod.snd).sum = dfA.length :=
  C1_counts_sum_eq_rows dfA

/-- Witness for C7 at the concrete table `dfW`. -/
theorem C7_structural_error_policy_witness :
    ((∃ out, preprocess_data dfW = .ok out) ↔
      ("acq_date" ∈ dfW.cols ∧ "acq_time" ∈ dfW.cols)) ∧
    ((∃ e, preprocess_data dfW = .error e) ↔
      ¬ ("acq_date" ∈ dfW.cols ∧ "acq_time" ∈ dfW.cols)) :=
  C7_structural_error_policy dfW
